import Mathlib

/-!
Verification development for the BOM import engine
(`src/FileCabinet/SuiteScripts/item_bom_create_mr.js`).

The JavaScript source is shallowly embedded: strings are `String`
(reasoned about through their `List Char` data), JavaScript numbers that
matter here are `ℚ` (with `Option ℚ` standing for a possibly-NaN result),
JavaScript `null`/`undefined` field values are `Option`, and the NetSuite
record store is an explicit `Store` value threaded through the phases.
Each definition is a direct translation of the correspondingly named
function (or inline code block) of the source.
-/

/-- Model of the JavaScript `String.prototype.trim`: drop whitespace from
both ends (source uses it via `value.trim()` and `line.trim()`). -/
def jsTrim (s : String) : String :=
  ⟨((s.data.dropWhile Char.isWhitespace).reverse.dropWhile Char.isWhitespace).reverse⟩

/-- Model of the JavaScript `String.prototype.split` with a one-character
separator, as used by `csvContent.split('\n')` and `row.hierarchy.split('.')`. -/
def jsSplitChar (sep : Char) (s : String) : List String :=
  (s.data.splitOn sep).map (fun l => ⟨l⟩)

/-- Model of the JavaScript `Array.prototype.join('.')` used for
`parts.join('.')`. -/
def joinDots (parts : List String) : String :=
  ⟨['.'].intercalate (parts.map String.data)⟩

/-- Model of `s.startsWith(target)`: `jsStartsWith s target` is true when
`s` begins with `target`. -/
def jsStartsWith (s target : String) : Bool :=
  target.data.isPrefixOf s.data

/-- Model of collecting a JavaScript `Set` from a list: duplicates are
dropped, first occurrences kept in insertion order. -/
def jsSetDedup : List String → List String
  | [] => []
  | x :: xs => x :: (jsSetDedup xs).filter (fun y => y != x)

/-- JavaScript object property read (`obj[key]`), for the dynamic
`itemFields` bag: first binding of the key wins. -/
def lookupField : List (String × String) → String → Option String
  | [], _ => none
  | (k, v) :: rest, key => if k = key then some v else lookupField rest key

/-- JavaScript object property write (`obj[key] = val`): replace the
binding if the key is present, otherwise append it. -/
def setField : List (String × String) → String → String → List (String × String)
  | [], key, val => [(key, val)]
  | (k, v) :: rest, key, val =>
    if k = key then (k, val) :: rest else (k, v) :: setField rest key val

/-- Truthiness of a possibly-undefined JavaScript string (`undefined` and
`""` are falsy). -/
def jsTruthyOptStr : Option String → Bool
  | none => false
  | some s => s != ""

/-- Powers of ten, kept as a plain recursive definition so concrete
evaluation reduces in the kernel. -/
def pow10 : ℕ → ℕ
  | 0 => 1
  | n + 1 => 10 * pow10 n

/-- Value of a digit string read left to right. -/
def digitsToNat (ds : List Char) : ℕ :=
  ds.foldl (fun acc c => acc * 10 + (c.toNat - '0'.toNat)) 0

/-- Model of the JavaScript `parseFloat` builtin, restricted to plain
decimal notation (optional leading whitespace, optional sign, integer
digits, optional fraction digits; trailing garbage ignored; no exponent
and no `Infinity`).  `none` stands for `NaN` (no digits found). -/
def jsParseFloat (s : String) : Option ℚ :=
  let cs := s.data.dropWhile Char.isWhitespace
  let signNeg : Bool := match cs with | '-' :: _ => true | _ => false
  let cs1 : List Char :=
    match cs with
    | '-' :: rest => rest
    | '+' :: rest => rest
    | _ => cs
  let intDigits := cs1.takeWhile Char.isDigit
  let rest1 := cs1.dropWhile Char.isDigit
  let fracDigits : List Char :=
    match rest1 with
    | '.' :: r => r.takeWhile Char.isDigit
    | _ => []
  if intDigits.isEmpty && fracDigits.isEmpty then none
  else
    let k := fracDigits.length
    let mag : ℤ := (digitsToNat intDigits : ℤ) * ((pow10 k : ℕ) : ℤ) + (digitsToNat fracDigits : ℤ)
    some (mkRat (if signNeg then -mag else mag) (pow10 k))

/-- The JavaScript idiom `x || 1` on a number that may be `NaN` (`none`):
both `NaN` and `0` are falsy and are replaced by `1`.  The source uses it
at `parseFloat(value) || 1` and `child.bomFields.quantity || 1`. -/
def jsNumOr1 (q : Option ℚ) : ℚ :=
  match q with
  | none => 1
  | some x => if x = 0 then 1 else x

/-- CSV tokenizer `parseRow`, inner loop: walks the characters with the
accumulated current field and the in-quotes flag, exactly as the source's
`for` loop with its `nextChar` lookahead. -/
def parseRowAux : List Char → List Char → Bool → List String
  | [], current, _ => [⟨current⟩]
  | '"' :: '"' :: rest, current, true => parseRowAux rest (current ++ ['"']) true
  | '"' :: rest, current, true => parseRowAux rest current false
  | '"' :: rest, current, false => parseRowAux rest current true
  | c :: rest, current, inQuotes =>
    if (c = ',' ∨ c = '\t') ∧ ¬inQuotes then
      ⟨current⟩ :: parseRowAux rest [] inQuotes
    else if c = '\r' then
      parseRowAux rest current inQuotes
    else
      parseRowAux rest (current ++ [c]) inQuotes

/-- CSV tokenizer `parseRow` of the source: split a line into fields on
commas and tabs outside double-quote spans, with `""` inside a quoted span
as an escaped quote, and `\r` stripped. -/
def parseRow (rowText : String) : List String :=
  parseRowAux rowText.data [] false

/-- Splitting the CSV contents into lines and dropping blank ones:
`csvContent.split('\n').filter(line => line.trim())`. -/
def nonBlankLines (csvContent : String) : List String :=
  (jsSplitChar '\n' csvContent).filter (fun line => jsTrim line != "")

/-- A parsed data row: 1-based row number (header is row 1) and its cells. -/
structure RawRow where
  rowNumber : ℕ
  cells : List String
deriving DecidableEq

/-- The data-row collection loop of `getInputData` (also repeated verbatim
in `reParseCSVForSummarize`): parse every line after the header, keeping
rows that have at least one nonblank cell. -/
def rawRows (csvContent : String) : List RawRow :=
  let lines := nonBlankLines csvContent
  (lines.enum.drop 1).filterMap (fun p =>
    let rowData := parseRow p.2
    if rowData.any (fun cell => jsTrim cell != "") then
      some ⟨p.1 + 1, rowData⟩
    else none)

/-- A mapped row of `getInputData`.  `bomFields.quantity`/`bomFields.memo`
are inlined as the `quantity`/`memo` fields; `itemFields` stays a dynamic
bag. -/
structure MappedRow where
  rowNumber : ℕ
  hierarchy : Option String
  itemFields : List (String × String)
  quantity : Option ℚ
  memo : Option String
  vendorName : Option String
  isAssembly : Bool
  recordType : String
  mrpRotationIndex : Option ℕ
  parentHierarchy : Option String
deriving DecidableEq

/-- A fresh mapped row before any column is applied. -/
def emptyMappedRow (rowNumber : ℕ) : MappedRow :=
  { rowNumber := rowNumber, hierarchy := none, itemFields := [], quantity := none,
    memo := none, vendorName := none, isAssembly := false, recordType := "",
    mrpRotationIndex := none, parentHierarchy := none }

/-- One step of the column-mapping loop of `getInputData`: apply a single
`colIndex → fieldName` entry of `config.mappings` to the row. -/
def applyMapping (cells : List String) (m : MappedRow) (entry : ℕ × String) : MappedRow :=
  let value := cells.getD entry.1 ""
  if jsTrim value = "" then m
  else
    match entry.2 with
    | "hierarchy" => { m with hierarchy := some (jsTrim value) }
    | "quantity" => { m with quantity := some (jsNumOr1 (jsParseFloat value)) }
    | "memo" => { m with memo := some (jsTrim value) }
    | "vendor" => { m with vendorName := some (jsTrim value) }
    | "displayname" =>
      { m with itemFields :=
          setField (setField (setField m.itemFields "displayname" (jsTrim value))
            "salesdescription" (jsTrim value)) "purchasedescription" (jsTrim value) }
    | fieldName => { m with itemFields := setField m.itemFields fieldName (jsTrim value) }

/-- The full column-mapping of one raw row in `getInputData`. -/
def mapRowPrimary (mappings : List (ℕ × String)) (row : RawRow) : MappedRow :=
  mappings.foldl (applyMapping row.cells) (emptyMappedRow row.rowNumber)

/-- The row filter of `getInputData`:
`.filter(row => row.hierarchy && row.itemFields.itemid)`. -/
def keepRow (r : MappedRow) : Bool :=
  jsTruthyOptStr r.hierarchy && jsTruthyOptStr (lookupField r.itemFields "itemid")

/-- Assembly detection of `getInputData`: some key in the hierarchy set,
other than the row's own key, starts with the row's key followed by `"."`. -/
def computeIsAssembly (keys : List String) (h : String) : Bool :=
  keys.any (fun k => k != h && jsStartsWith k (h ++ "."))

/-- Parent-hierarchy derivation of `getInputData`: split the key on `"."`,
and when there is more than one segment drop the last and rejoin, else
`null`. -/
def parentKey (h : String) : Option String :=
  let parts := jsSplitChar '.' h
  if 1 < parts.length then some (joinDots parts.dropLast) else none

/-- The classification `forEach` of `getInputData`: mark each row
assembly/inventory from the shared key set, hand inventory rows the
running MRP rotation index, and derive the parent hierarchy. -/
def classifyGo (keys : List String) (invIdx : ℕ) : List MappedRow → List MappedRow
  | [] => []
  | r :: rs =>
    let h := r.hierarchy.getD ""
    let isA := computeIsAssembly keys h
    let r' := { r with
      isAssembly := isA,
      recordType := if isA then "assemblyitem" else "inventoryitem",
      mrpRotationIndex := if isA then r.mrpRotationIndex else some invIdx,
      parentHierarchy := parentKey h }
    r' :: classifyGo keys (if isA then invIdx else invIdx + 1) rs

/-- The hierarchy key set (`new Set(mappedRows.map(r => r.hierarchy))`) of
a row list; rows reaching this point all carry a hierarchy key. -/
def hierarchyKeys (rows : List MappedRow) : List String :=
  jsSetDedup (rows.filterMap (fun r => r.hierarchy))

/-- Classification of the whole mapped-row list in `getInputData`. -/
def classifyRows (rows : List MappedRow) : List MappedRow :=
  classifyGo (hierarchyKeys rows) 0 rows

/-- The row list produced by `getInputData` from the CSV contents and the
column mapping (parse, map, filter, classify). -/
def getInputRows (csvContent : String) (mappings : List (ℕ × String)) : List MappedRow :=
  classifyRows (((rawRows csvContent).map (mapRowPrimary mappings)).filter keepRow)

/-- A row as rebuilt by the cache-miss fallback `reParseCSVForSummarize`,
which only maps `hierarchy`, `quantity` and `itemid`. -/
structure FallbackRow where
  rowNumber : ℕ
  hierarchy : Option String
  itemid : Option String
  quantity : Option ℚ
  isAssembly : Bool
  parentHierarchy : Option String
deriving DecidableEq

/-- One step of the column-mapping loop of `reParseCSVForSummarize`. -/
def applyMappingFallback (cells : List String) (m : FallbackRow) (entry : ℕ × String) :
    FallbackRow :=
  let value := cells.getD entry.1 ""
  if jsTrim value = "" then m
  else
    match entry.2 with
    | "hierarchy" => { m with hierarchy := some (jsTrim value) }
    | "quantity" => { m with quantity := some (jsNumOr1 (jsParseFloat value)) }
    | "itemid" => { m with itemid := some (jsTrim value) }
    | _ => m

/-- The full column-mapping of one raw row in `reParseCSVForSummarize`. -/
def mapRowFallback (mappings : List (ℕ × String)) (row : RawRow) : FallbackRow :=
  mappings.foldl (applyMappingFallback row.cells)
    { rowNumber := row.rowNumber, hierarchy := none, itemid := none, quantity := none,
      isAssembly := false, parentHierarchy := none }

/-- The row filter of `reParseCSVForSummarize`. -/
def keepRowFallback (r : FallbackRow) : Bool :=
  jsTruthyOptStr r.hierarchy && jsTruthyOptStr r.itemid

/-- The classification `forEach` of `reParseCSVForSummarize` (no MRP
rotation index there). -/
def classifyFallback (rows : List FallbackRow) : List FallbackRow :=
  let keys := jsSetDedup (rows.filterMap (fun r => r.hierarchy))
  rows.map (fun r =>
    let h := r.hierarchy.getD ""
    { r with isAssembly := computeIsAssembly keys h, parentHierarchy := parentKey h })

/-- The row list rebuilt by `reParseCSVForSummarize` on a cache miss. -/
def reParseCSVForSummarize (csvContent : String) (mappings : List (ℕ × String)) :
    List FallbackRow :=
  classifyFallback (((rawRows csvContent).map (mapRowFallback mappings)).filter keepRowFallback)

/-- External identity of an item record:
`rowData.prospectName + '_' + rowData.itemFields.itemid`. -/
def itemExternalId (ns itemid : String) : String :=
  ns ++ "_" ++ itemid

/-- External identity of a BOM record: `prospectName + '_' + (itemid + '_BOM')`
(`createOrGetBOM`). -/
def bomExternalId (ns itemid : String) : String :=
  ns ++ "_" ++ (itemid ++ "_BOM")

/-- External identity of a BOM revision:
`prospectName + '_' + (itemid + '_REV_A')` (`createOrGetBOMRevision`). -/
def bomRevisionExternalId (ns itemid : String) : String :=
  ns ++ "_" ++ (itemid ++ "_REV_A")

/-- The natural id of a mapped row (`rowData.itemFields.itemid`); rows that
survive the filter always carry one. -/
def itemidOf (r : MappedRow) : String :=
  (lookupField r.itemFields "itemid").getD ""

/-- One line of an assembly's `billofmaterials` sublist: the linked BOM
(by its external identity in this model) and the `masterdefault` flag. -/
structure BomLink where
  assembly : String
  bom : String
  masterdefault : Bool
deriving DecidableEq

/-- The abstract NetSuite record store, with every collection keyed by
external identity: items, item-location configurations (item × location),
BOMs, BOM revisions, and assembly→BOM link lines. -/
structure Store where
  items : List String
  itemLocs : List (String × ℕ)
  boms : List String
  bomRevs : List String
  bomLinks : List BomLink
deriving DecidableEq

/-- `findItemByExternalId` of the source, abstracted to an existence check
on the store. -/
def findItemByExternalId (s : Store) (extId : String) : Bool :=
  s.items.contains extId

/-- `createItem` followed by `createItemLocations`: a new item record plus
one item-location configuration per configured location. -/
def createItem (s : Store) (extId : String) (locationIds : List ℕ) : Store :=
  { s with
    items := s.items ++ [extId],
    itemLocs := s.itemLocs ++ locationIds.map (fun l => (extId, l)) }

/-- `ensureItemLocations` of the source: add an item-location
configuration for every configured location the existing item is missing;
returns the updated store and the number of locations added. -/
def ensureItemLocations (s : Store) (extId : String) (locationIds : List ℕ) : Store × ℕ :=
  let missing := locationIds.filter (fun l => !s.itemLocs.contains (extId, l))
  ({ s with itemLocs := s.itemLocs ++ missing.map (fun l => (extId, l)) }, missing.length)

/-- The per-record body of `reduce`: look the item up by external
identity; if found run the idempotent location repair, otherwise create
the item with its locations. -/
def reduceRow (ns : String) (locationIds : List ℕ) (s : Store) (r : MappedRow) : Store :=
  let extId := itemExternalId ns (itemidOf r)
  if findItemByExternalId s extId then
    (ensureItemLocations s extId locationIds).1
  else
    createItem s extId locationIds

/-- Phase 2 (`map` + `reduce`): rows are routed to the `1_inventory` and
`2_assembly` groups and each group's records are processed in order. -/
def reducePhase (ns : String) (locationIds : List ℕ) (rows : List MappedRow) (s : Store) :
    Store :=
  ((rows.filter (fun r => !r.isAssembly)) ++ (rows.filter (fun r => r.isAssembly))).foldl
    (reduceRow ns locationIds) s

/-- `ensureBOMLinkedToAssembly` of the source: scan the assembly's link
lines for the BOM; an already-preferred line is left alone (`false` = not
updated), a non-preferred line is upgraded in place, and a missing line is
appended with the preferred flag set.  Returns the new line list and the
created-or-updated flag. -/
def ensureBOMLinkedToAssembly : List BomLink → String → String → List BomLink × Bool
  | [], asm, bom => ([⟨asm, bom, true⟩], true)
  | l :: ls, asm, bom =>
    if l.assembly = asm ∧ l.bom = bom then
      if l.masterdefault then (l :: ls, false)
      else ({ l with masterdefault := true } :: ls, true)
    else
      let r := ensureBOMLinkedToAssembly ls asm bom
      (l :: r.1, r.2)

/-- Outcome of processing one assembly row in `summarize`. -/
inductive AssemblyOutcome
  | notFound
  | noChildren
  | noComponents
  | processed (components : List (String × ℚ)) (bomCreated : Bool) (revCreated : Bool)
      (linkTouched : Bool)
deriving DecidableEq

/-- Contribution of an assembly's outcome to the `bomsFailed` counter of
`summarize` (`notFound` and `noComponents` are failures; `noChildren` is a
skip). -/
def bomsFailedDelta : AssemblyOutcome → ℕ
  | .notFound => 1
  | .noChildren => 0
  | .noComponents => 1
  | .processed _ _ _ _ => 0

/-- The per-assembly body of `summarize`: resolve the assembly by external
identity, collect its direct children (`parentHierarchy === hierarchy`),
resolve each child, and when components exist create-or-reuse the BOM, the
revision, and the preferred link. -/
def summarizeAssembly (ns : String) (allRows : List MappedRow) (s : Store)
    (assembly : MappedRow) : Store × AssemblyOutcome :=
  let assemblyItemId := itemidOf assembly
  let assemblyExternalId := itemExternalId ns assemblyItemId
  if !findItemByExternalId s assemblyExternalId then
    (s, .notFound)
  else
    let directChildren := allRows.filter (fun r => r.parentHierarchy = assembly.hierarchy)
    if directChildren.isEmpty then
      (s, .noChildren)
    else
      let components := directChildren.filterMap (fun child =>
        if findItemByExternalId s (itemExternalId ns (itemidOf child)) then
          some (itemidOf child, jsNumOr1 child.quantity)
        else none)
      if components.isEmpty then
        (s, .noComponents)
      else
        let bomExt := bomExternalId ns assemblyItemId
        let bomExists := s.boms.contains bomExt
        let s1 := if bomExists then s else { s with boms := s.boms ++ [bomExt] }
        let revExt := bomRevisionExternalId ns assemblyItemId
        let revExists := s1.bomRevs.contains revExt
        let s2 := if revExists then s1 else { s1 with bomRevs := s1.bomRevs ++ [revExt] }
        let linkResult := ensureBOMLinkedToAssembly s2.bomLinks assemblyExternalId bomExt
        ({ s2 with bomLinks := linkResult.1 },
          .processed components (!bomExists) (!revExists) linkResult.2)

/-- Phase 3 (`summarize`): process every assembly row of the full row list
in order, threading the store. -/
def summarizePhase (ns : String) (allRows : List MappedRow) (s : Store) : Store :=
  (allRows.filter (fun r => r.isAssembly)).foldl
    (fun st asm => (summarizeAssembly ns allRows st asm).1) s

/-- The whole three-phase pipeline on classified rows: Phase 2 then
Phase 3 (Phase 1 only partitions and caches the rows). -/
def runPipeline (ns : String) (locationIds : List ℕ) (rows : List MappedRow) (s : Store) :
    Store :=
  summarizePhase ns rows (reducePhase ns locationIds rows s)

/-- The pipeline run end to end from the CSV text, as dispatched by the
map/reduce executor on one run: `getInputData` derives the classified
rows, then Phases 2 and 3 reconcile the store. -/
def runPipelineFromCSV (ns : String) (locationIds : List ℕ) (csvContent : String)
    (mappings : List (ℕ × String)) (s : Store) : Store :=
  runPipeline ns locationIds (getInputRows csvContent mappings) s

/-- A record write performed by `getInputData` before the CSV row-count
check: a planning item category or a vendor creation. -/
inductive WriteEvent
  | planningCategory (name : Option String)
  | vendor (name : String)
deriving DecidableEq

/-- The parsed JSON configuration file, with defaults already merged
(`DEFAULTS` in the source). -/
structure ConfigFile where
  prospectName : Option String
  csvFileId : ℕ
  mappings : List (ℕ × String)
  setupMRP : Bool
  createVendors : Bool

/-- Vendor-column detection of `createVendorsFromCSV`: the last mapping
entry naming `vendor` wins. -/
def vendorColIndex (mappings : List (ℕ × String)) : Option ℕ :=
  mappings.foldl (fun acc e => if e.2 = "vendor" then some e.1 else acc) none

/-- `createVendorsFromCSV` of the source, reduced to the record writes it
performs: one vendor creation per distinct, nonblank vendor-column value
of the data rows that does not already exist.  A missing vendor column or
an unloadable CSV file is swallowed (no writes, no error). -/
def createVendorsFromCSV (mappings : List (ℕ × String)) (csvContent : Option String)
    (vendorExists : String → Bool) : List WriteEvent :=
  match vendorColIndex mappings with
  | none => []
  | some vi =>
    match csvContent with
    | none => []
    | some content =>
      let lines := nonBlankLines content
      let names := (lines.drop 1).filterMap (fun line =>
        let rowData := parseRow line
        let vendorName := rowData.getD vi ""
        if vendorName != "" && jsTrim vendorName != "" then some (jsTrim vendorName) else none)
      (jsSetDedup names).filterMap (fun name =>
        if vendorExists name then none else some (.vendor name))

/-- `getInputData` of the source as a function of its environment: the
script parameter, the file cabinet (config files resolve to parsed
configurations, other files to their text), and the pre-existing state
queried by the planning-category and vendor searches.  Returns either the
fatal error or the classified rows, together with the record writes
performed along the way. -/
def getInputDataModel (param : Option ℕ) (configFiles : ℕ → Option ConfigFile)
    (files : ℕ → Option String) (categoryExists : Bool) (vendorExists : String → Bool) :
    Except String (List MappedRow) × List WriteEvent :=
  match param with
  | none => (.error "Config file ID parameter is required", [])
  | some configFileId =>
    match configFiles configFileId with
    | none => (.error "config file load failed", [])
    | some config =>
      let categoryWrites :=
        if config.setupMRP && !categoryExists then
          [WriteEvent.planningCategory config.prospectName]
        else []
      let vendorWrites :=
        if config.createVendors then
          createVendorsFromCSV config.mappings (files config.csvFileId) vendorExists
        else []
      let writes := categoryWrites ++ vendorWrites
      match files config.csvFileId with
      | none => (.error "CSV file load failed", writes)
      | some csvContent =>
        if (nonBlankLines csvContent).length < 2 then
          (.error "CSV must have at least a header row and one data row", writes)
        else
          (.ok (getInputRows csvContent config.mappings), writes)

/-- Whether a run result is a fatal (process-level) error. -/
def resultIsError : Except String (List MappedRow) → Bool
  | .error _ => true
  | .ok _ => false

/-! ### Helper lemmas -/

/-- Strings with equal character data are equal. -/
theorem string_ext {s t : String} (h : s.data = t.data) : s = t := by
  cases s; cases t; exact congrArg String.mk h

/-- Membership is unchanged by the JavaScript-`Set` deduplication. -/
theorem mem_jsSetDedup {x : String} : ∀ {l : List String}, x ∈ jsSetDedup l ↔ x ∈ l := by
  intro l
  induction l with
  | nil => simp [jsSetDedup]
  | cons a as ih =>
    simp only [jsSetDedup, List.mem_cons, List.mem_filter, bne_iff_ne, ih]
    by_cases hxa : x = a <;> simp [hxa]

/-! ### C6 — external identities -/

/-- C6: `ExternalIdentity` is a pure function of namespace, natural id and
entity role — items get `ns ++ "_" ++ id`, structures `ns ++ "_" ++ id ++
"_BOM"`, revisions `ns ++ "_" ++ id ++ "_REV_A"` — and for each role two
natural ids under the same namespace produce the same identity exactly
when they are equal (so distinct natural ids never collide). -/
theorem externalIdentity_pure_and_injective (ns a b : String) :
    (itemExternalId ns a = itemExternalId ns b ↔ a = b) ∧
    (bomExternalId ns a = bomExternalId ns b ↔ a = b) ∧
    (bomRevisionExternalId ns a = bomRevisionExternalId ns b ↔ a = b) := by
  have cancel : ∀ suffix x y : String,
      ns ++ "_" ++ (x ++ suffix) = ns ++ "_" ++ (y ++ suffix) → x = y := by
    intro suffix x y h
    have hd := congrArg String.data h
    simp only [String.data_append] at hd
    exact string_ext (List.append_cancel_right (List.append_cancel_left hd))
  refine ⟨⟨fun h => ?_, fun h => by rw [h]⟩,
    ⟨fun h => cancel "_BOM" a b h, fun h => by rw [h]⟩,
    ⟨fun h => cancel "_REV_A" a b h, fun h => by rw [h]⟩⟩
  have hd := congrArg String.data h
  simp only [itemExternalId, String.data_append] at hd
  exact string_ext (List.append_cancel_left hd)

/-- Witness for C6 at concrete inputs. -/
theorem externalIdentity_pure_and_injective_witness :
    itemExternalId "P" "A" ≠ itemExternalId "P" "B" ∧
    bomExternalId "P" "A" ≠ bomExternalId "P" "B" ∧
    bomRevisionExternalId "P" "A" ≠ bomRevisionExternalId "P" "B" := by
  obtain ⟨h1, h2, h3⟩ := externalIdentity_pure_and_injective "P" "A" "B"
  exact ⟨fun h => absurd (h1.mp h) (by decide), fun h => absurd (h2.mp h) (by decide),
    fun h => absurd (h3.mp h) (by decide)⟩

/-! ### C3 — parent keys -/

/-- Splitting a dot-join of dot-free segments recovers the segments. -/
theorem jsSplitChar_joinDots (segs : List String) (hne : segs ≠ [])
    (hdot : ∀ s ∈ segs, '.' ∉ s.data) : jsSplitChar '.' (joinDots segs) = segs := by
  unfold jsSplitChar joinDots
  rw [show (⟨['.'].intercalate (segs.map String.data)⟩ : String).data
      = ['.'].intercalate (segs.map String.data) from rfl]
  rw [List.splitOn_intercalate (segs.map String.data) '.'
    (by intro l hl; obtain ⟨s, hs, rfl⟩ := List.mem_map.1 hl; exact hdot s hs)
    (by simpa using hne)]
  rw [List.map_map, show ((fun l => (⟨l⟩ : String)) ∘ String.data) = id from funext fun s => rfl,
    List.map_id]

/-- C3 (amended): the derived parent key drops the last dot-segment when
the key has more than one segment, and is null for a single-segment key;
`parentKey "1.1.1" = "1.1"`, and for the two-segment key `"1.0"` the
parent is `"1"` (not null — only dot-free keys such as `"5"` give null). -/
theorem parentKey_spec :
    (∀ segs : List String, segs ≠ [] → (∀ s ∈ segs, '.' ∉ s.data) →
        parentKey (joinDots segs) =
          if 1 < segs.length then some (joinDots segs.dropLast) else none) ∧
    parentKey "1.1.1" = some "1.1" ∧ parentKey "1.0" = some "1" ∧ parentKey "5" = none := by
  refine ⟨fun segs hne hdot => ?_, by decide, by decide, by decide⟩
  simp only [parentKey, jsSplitChar_joinDots segs hne hdot]

/-- C3 counterexample to the claim as stated: the code's parent of the
two-segment key `"1.0"` is `"1"`, not null. -/
theorem parentKey_of_root_style_key_not_null :
    parentKey "1.0" = some "1" ∧ parentKey "1.0" ≠ none := by
  exact ⟨by decide, by decide⟩

/-- Witness for C3 at a concrete input. -/
theorem parentKey_spec_witness : parentKey "2.7.1" = some "2.7" := by
  have h := parentKey_spec.1 ["2", "7", "1"] (by decide) (by decide)
  have e1 : joinDots ["2", "7", "1"] = "2.7.1" := by decide
  have e2 : joinDots (["2", "7", "1"].dropLast) = "2.7" := by decide
  rw [e1, e2] at h
  simpa using h

/-! ### C8 — tokenizer -/

/-- No field produced by the tokenizer loop contains a carriage return
(provided the accumulated field has none). -/
theorem parseRowAux_no_cr :
    ∀ (cs current : List Char) (iq : Bool), '\r' ∉ current →
      ∀ f ∈ parseRowAux cs current iq, '\r' ∉ f.data := by
  intro cs current iq
  induction cs, current, iq using parseRowAux.induct with
  | case1 current iq =>
    intro h f hf
    rw [parseRowAux.eq_1] at hf
    simp only [List.mem_singleton] at hf
    subst hf
    exact h
  | case2 rest current ih =>
    intro h f hf
    rw [parseRowAux.eq_2] at hf
    exact ih (by simp [h]) f hf
  | case3 rest current hx ih =>
    intro h f hf
    rw [parseRowAux.eq_3 _ _ hx] at hf
    exact ih h f hf
  | case4 rest current ih =>
    intro h f hf
    rw [parseRowAux.eq_4] at hf
    exact ih h f hf
  | case5 c rest current inQuotes hx3 hx2 hx1 hcond ih =>
    intro h f hf
    rw [parseRowAux.eq_5 _ _ _ _ hx3 hx2 hx1, if_pos hcond] at hf
    rcases List.mem_cons.1 hf with rfl | hf2
    · exact h
    · exact ih (by simp) f hf2
  | case6 rest current inQuotes hx3 hx2 hx1 hcond ih =>
    intro h f hf
    rw [parseRowAux.eq_5 _ _ _ _ hx3 hx2 hx1, if_neg hcond, if_pos rfl] at hf
    exact ih h f hf
  | case7 c rest current inQuotes hx3 hx2 hx1 hcond hcr ih =>
    intro h f hf
    rw [parseRowAux.eq_5 _ _ _ _ hx3 hx2 hx1, if_neg hcond, if_neg hcr] at hf
    refine ih ?_ f hf
    intro hmem
    rcases List.mem_append.1 hmem with hm | hm
    · exact h hm
    · simp only [List.mem_singleton] at hm
      exact hcr hm.symm

/-- C8: the tokenizer splits on commas and tabs outside quotes
(`a,"b,c",d` and the escaped-quote example `a,"b""c",d`), consumes an
unterminated quote to the end of the row without error, strips carriage
returns from every emitted field, and blank or whitespace-only lines are
dropped before tokenization. -/
theorem tokenizer_spec :
    parseRow "a,\"b,c\",d" = ["a", "b,c", "d"] ∧
    parseRow "a,\"b\"\"c\",d" = ["a", "b\"c", "d"] ∧
    parseRow "a,\"b,c" = ["a", "b,c"] ∧
    (∀ s : String, ∀ f ∈ parseRow s, '\r' ∉ f.data) ∧
    parseRow "x\r1,y\r2" = ["x1", "y2"] ∧
    nonBlankLines "a\n   \n\nb" = ["a", "b"] ∧
    (∀ content : String, ∀ line ∈ nonBlankLines content, jsTrim line ≠ "") := by
  refine ⟨by decide, by decide, by decide,
    fun s => parseRowAux_no_cr s.data [] false (by simp), by decide, by decide,
    fun content line hline => ?_⟩
  have := (List.mem_filter.1 hline).2
  simpa [bne_iff_ne] using this

/-- Witness for C8 at concrete inputs. -/
theorem tokenizer_spec_witness :
    '\r' ∉ ("xy" : String).data ∧ jsTrim "a" ≠ "" := by
  refine ⟨tokenizer_spec.2.2.2.1 "x\ry" "xy" ?_, ?_⟩
  · rw [show parseRow "x\ry" = ["xy"] from by decide]
    simp
  · exact tokenizer_spec.2.2.2.2.2.2 "a\nb" "a" (by decide)

/-! ### C9 — quantities -/

/-- The `parseFloat(value) || 1` result is never zero. -/
theorem jsNumOr1_ne_zero (q : Option ℚ) : jsNumOr1 q ≠ 0 := by
  cases q with
  | none => simp [jsNumOr1]
  | some x =>
    simp only [jsNumOr1]
    split
    · simp
    · assumption

/-- A stored row quantity, if present, is nonzero. -/
def quantityOk (q : Option ℚ) : Prop := ∀ x, q = some x → x ≠ 0

/-- Column mapping preserves the nonzero-quantity invariant. -/
theorem applyMapping_quantityOk (cells : List String) (m : MappedRow) (e : ℕ × String)
    (h : quantityOk m.quantity) : quantityOk (applyMapping cells m e).quantity := by
  intro x hx
  unfold applyMapping at hx
  dsimp only at hx
  split at hx <;> try split at hx
  all_goals
    first
      | exact h x hx
      | exact Option.some.inj
          (show some (jsNumOr1 (jsParseFloat (cells.getD e.1 ""))) = some x from hx) ▸
          jsNumOr1_ne_zero _

/-- Every row produced by the primary column mapper satisfies the
nonzero-quantity invariant. -/
theorem mapRowPrimary_quantityOk (mappings : List (ℕ × String)) (row : RawRow) :
    quantityOk (mapRowPrimary mappings row).quantity := by
  unfold mapRowPrimary
  have h0 : quantityOk (emptyMappedRow row.rowNumber).quantity := by
    intro x hx; simp [emptyMappedRow] at hx
  generalize emptyMappedRow row.rowNumber = m at h0
  induction mappings generalizing m with
  | nil => exact h0
  | cons e es ih => exact ih _ (applyMapping_quantityOk row.cells m e h0)

/-- Classification preserves each row's quantity: any classified row's
quantity is the quantity of some underlying mapped row. -/
theorem classifyGo_quantity (keys : List String) :
    ∀ (rows : List MappedRow) (i : ℕ), ∀ r ∈ classifyGo keys i rows,
      ∃ r0 ∈ rows, r.quantity = r0.quantity := by
  intro rows
  induction rows with
  | nil => intro i r hr; simp [classifyGo] at hr
  | cons r0 rs ih =>
    intro i r hr
    simp only [classifyGo, List.mem_cons] at hr
    rcases hr with rfl | hr
    · exact ⟨r0, List.mem_cons_self _ _, rfl⟩
    · obtain ⟨r1, hr1, hq⟩ := ih _ r hr
      exact ⟨r1, List.mem_cons_of_mem _ hr1, hq⟩

/-- C9 (amended): a mapped quantity cell stores the cell parsed as a
decimal, with `1` substituted on parse failure *or when the parsed value
is zero* (JavaScript `parseFloat(value) || 1`); and the component quantity
taken in `summarize` (`child.bomFields.quantity || 1`) equals the child
row's stored quantity, defaulting to `1` when the row has none — the
stored quantity is never zero, so the falsy-zero branch cannot retrigger
there. -/
theorem quantity_defaulting_spec :
    (∀ v : String, jsParseFloat v = none → jsNumOr1 (jsParseFloat v) = 1) ∧
    (∀ v : String, jsParseFloat v = some 0 → jsNumOr1 (jsParseFloat v) = 1) ∧
    (∀ (v : String) (q : ℚ), jsParseFloat v = some q → q ≠ 0 →
      jsNumOr1 (jsParseFloat v) = q) ∧
    (∀ (csvContent : String) (mappings : List (ℕ × String)),
      ∀ r ∈ getInputRows csvContent mappings, jsNumOr1 r.quantity = r.quantity.getD 1) := by
  refine ⟨fun v hv => by simp [hv, jsNumOr1], fun v hv => by simp [hv, jsNumOr1],
    fun v q hv hq => by simp [hv, jsNumOr1, hq], fun csv mappings r hr => ?_⟩
  obtain ⟨r0, hr0, hq⟩ := classifyGo_quantity _ _ _ r hr
  have hmem := List.mem_filter.1 hr0
  obtain ⟨raw, _, rfl⟩ := List.mem_map.1 hmem.1
  have hok := mapRowPrimary_quantityOk mappings raw
  rw [hq]
  cases hqv : (mapRowPrimary mappings raw).quantity with
  | none => simp [jsNumOr1]
  | some x =>
    have hx := hok x hqv
    simp [jsNumOr1, hx]

/-- C9 counterexample to the claim as stated: the cell `"0"` parses
successfully to `0`, yet the stored quantity is `1`. -/
theorem quantity_zero_cell_stored_as_one :
    jsParseFloat "0" = some 0 ∧ jsNumOr1 (jsParseFloat "0") = 1 ∧ (1 : ℚ) ≠ 0 :=
  ⟨by decide, by decide, by decide⟩

/-- A concrete classified row used to instantiate the C9 theorem. -/
def quantityWitnessRow : MappedRow :=
  { emptyMappedRow 2 with
    hierarchy := some "1.0"
    itemFields := [("itemid", "A")]
    recordType := "inventoryitem"
    mrpRotationIndex := some 0
    parentHierarchy := some "1" }

/-- Witness for C9 at concrete inputs. -/
theorem quantity_defaulting_spec_witness :
    jsNumOr1 (jsParseFloat "abc") = 1 ∧
    jsNumOr1 (jsParseFloat "7") = mkRat 7 1 ∧
    jsNumOr1 quantityWitnessRow.quantity = quantityWitnessRow.quantity.getD 1 := by
  refine ⟨quantity_defaulting_spec.1 "abc" (by decide), ?_, ?_⟩
  · refine quantity_defaulting_spec.2.2.1 "7" (mkRat 7 1) rfl ?_
    simp [Rat.mkRat_eq_zero]
  · exact quantity_defaulting_spec.2.2.2 "h1,h2\n1.0,A" [(0, "hierarchy"), (1, "itemid")]
      quantityWitnessRow (by decide)

/-! ### C2 — hierarchy classification -/

/-- Classification only rewrites the derived fields: every classified
row's assembly flag is the classifier applied to its own (unchanged)
hierarchy key. -/
theorem classifyGo_isAssembly (keys : List String) :
    ∀ (rows : List MappedRow) (i : ℕ), ∀ r ∈ classifyGo keys i rows,
      r.isAssembly = computeIsAssembly keys (r.hierarchy.getD "") := by
  intro rows
  induction rows with
  | nil => intro i r hr; simp [classifyGo] at hr
  | cons r0 rs ih =>
    intro i r hr
    simp only [classifyGo, List.mem_cons] at hr
    rcases hr with rfl | hr
    · rfl
    · exact ih _ r hr

/-- C2 (amended): a row is classified assembly exactly when the key set
holds a key, other than the row's own key, of the form
`key ++ "." ++ rest` — where `rest` may be empty (the source checks
`startsWith(key + '.')`, so a key equal to `key ++ "."` already counts);
a key is never its own descendant (the source's `h !== row.hierarchy`
guard), and rows with equal hierarchy keys always get the same kind. -/
theorem classification_spec :
    (∀ (keys : List String) (h : String),
      computeIsAssembly keys h = true ↔
        ∃ k ∈ keys, k ≠ h ∧ ∃ rest : String, k = h ++ "." ++ rest) ∧
    (∀ (rows : List MappedRow), ∀ r ∈ classifyRows rows,
      r.isAssembly = computeIsAssembly (hierarchyKeys rows) (r.hierarchy.getD "")) ∧
    (∀ (rows : List MappedRow), ∀ r1 ∈ classifyRows rows, ∀ r2 ∈ classifyRows rows,
      r1.hierarchy = r2.hierarchy → r1.isAssembly = r2.isAssembly) := by
  have part1 : ∀ (keys : List String) (h : String),
      computeIsAssembly keys h = true ↔
        ∃ k ∈ keys, k ≠ h ∧ ∃ rest : String, k = h ++ "." ++ rest := by
    intro keys h
    unfold computeIsAssembly
    rw [List.any_eq_true]
    constructor
    · rintro ⟨k, hk, hcond⟩
      rw [Bool.and_eq_true, bne_iff_ne] at hcond
      obtain ⟨hne, hsw⟩ := hcond
      unfold jsStartsWith at hsw
      obtain ⟨t, ht⟩ := List.isPrefixOf_iff_prefix.1 hsw
      refine ⟨k, hk, hne, ⟨t⟩, ?_⟩
      apply string_ext
      rw [String.data_append]
      exact ht.symm
    · rintro ⟨k, hk, hne, rest, rfl⟩
      refine ⟨_, hk, ?_⟩
      rw [Bool.and_eq_true, bne_iff_ne]
      refine ⟨hne, ?_⟩
      unfold jsStartsWith
      rw [List.isPrefixOf_iff_prefix, String.data_append]
      exact List.prefix_append _ _
  refine ⟨part1, fun rows r hr => classifyGo_isAssembly _ rows 0 r hr, ?_⟩
  intro rows r1 h1 r2 h2 hh
  rw [classifyGo_isAssembly _ rows 0 r1 h1, classifyGo_isAssembly _ rows 0 r2 h2, hh]

/-- A concrete mapped row with hierarchy key `1.0`. -/
def rowWithPlainKey : MappedRow :=
  { emptyMappedRow 2 with hierarchy := some "1.0", itemFields := [("itemid", "A")] }

/-- A concrete mapped row with the trailing-dot hierarchy key `1.0.`. -/
def rowWithTrailingDotKey : MappedRow :=
  { emptyMappedRow 3 with hierarchy := some "1.0.", itemFields := [("itemid", "B")] }

/-- C2 counterexample to the claim as stated: with keys `{1.0, 1.0.}` the
code classifies `1.0` as an assembly, yet no key in the set extends
`1.0` by `"."` and a *nonempty* suffix. -/
theorem trailing_dot_key_refutes_nonempty_suffix :
    ((classifyRows [rowWithPlainKey, rowWithTrailingDotKey]).map (fun r => r.isAssembly))
        = [true, false] ∧
    ¬ (∃ k ∈ hierarchyKeys [rowWithPlainKey, rowWithTrailingDotKey], k ≠ "1.0" ∧
        ∃ rest : String, rest ≠ "" ∧ k = "1.0" ++ "." ++ rest) := by
  constructor
  · decide
  · rintro ⟨k, hk, hne, rest, hrest, rfl⟩
    rw [show hierarchyKeys [rowWithPlainKey, rowWithTrailingDotKey] = ["1.0", "1.0."]
      from by decide] at hk
    rcases List.mem_cons.1 hk with heq | hk2
    · have hl := congrArg String.length heq
      rw [String.length_append, String.length_append,
        show ("1.0" : String).length = 3 from by decide,
        show ("." : String).length = 1 from by decide] at hl
      omega
    · rcases List.mem_cons.1 hk2 with heq | hk3
      · have hl := congrArg String.length heq
        rw [String.length_append, String.length_append,
          show ("1.0" : String).length = 3 from by decide,
          show ("." : String).length = 1 from by decide,
          show ("1.0." : String).length = 4 from by decide] at hl
        have hz : rest.length = 0 := by omega
        have : rest.data.length = 0 := hz
        have : rest.data = [] := List.length_eq_zero.1 this
        exact hrest (string_ext this)
      · simp at hk3

/-- Witness for C2 at concrete inputs. -/
theorem classification_spec_witness :
    computeIsAssembly ["1.0", "1.0.1"] "1.0" = true := by
  refine (classification_spec.1 ["1.0", "1.0.1"] "1.0").mpr ?_
  exact ⟨"1.0.1", by decide, by decide, "1", by decide⟩


/-! ### C5 — BOM link reconciliation -/

/-- The pair-matching predicate on link lines. -/
def matchesPair (a b : String) (l : BomLink) : Bool :=
  decide (l.assembly = a ∧ l.bom = b)

/-- C5: under the at-most-one-link-per-pair invariant, reconciling the
link from an assembly to its BOM (a) leaves an already-preferred line
untouched and reports not-updated, (b) upgrades the existing
non-preferred line in place — no line added or removed — and reports
updated, and (c) appends exactly one new preferred line when none exists;
in every case exactly one line for the pair remains afterwards. -/
theorem ensureBOMLink_spec (lines : List BomLink) (a b : String)
    (huniq : (lines.filter (matchesPair a b)).length ≤ 1) :
    ((∃ l ∈ lines, l.assembly = a ∧ l.bom = b ∧ l.masterdefault = true) →
        ensureBOMLinkedToAssembly lines a b = (lines, false)) ∧
    ((∃ l ∈ lines, l.assembly = a ∧ l.bom = b ∧ l.masterdefault = false) →
        ensureBOMLinkedToAssembly lines a b =
          (lines.map (fun l => if l.assembly = a ∧ l.bom = b then ⟨a, b, true⟩ else l), true)) ∧
    ((∀ l ∈ lines, ¬(l.assembly = a ∧ l.bom = b)) →
        ensureBOMLinkedToAssembly lines a b = (lines ++ [⟨a, b, true⟩], true)) ∧
    (((ensureBOMLinkedToAssembly lines a b).1.filter (matchesPair a b)).length = 1) := by
  induction lines with
  | nil =>
    refine ⟨fun hex => by simp at hex, fun hex => by simp at hex, fun _ => rfl, ?_⟩
    simp [ensureBOMLinkedToAssembly, matchesPair]
  | cons l0 ls ih =>
    by_cases h0 : l0.assembly = a ∧ l0.bom = b
    · have hfl : List.filter (matchesPair a b) (l0 :: ls) =
          l0 :: List.filter (matchesPair a b) ls := by
        simp [List.filter_cons, matchesPair, h0]
      rw [hfl, List.length_cons] at huniq
      have hls0 : ls.filter (matchesPair a b) = [] := by
        have : (ls.filter (matchesPair a b)).length = 0 := by omega
        exact List.length_eq_zero.1 this
      have hlsempty : ∀ l ∈ ls, ¬(l.assembly = a ∧ l.bom = b) := by
        intro l hl hc
        have hmem : l ∈ ls.filter (matchesPair a b) :=
          List.mem_filter.2 ⟨hl, by simp [matchesPair, hc]⟩
        rw [hls0] at hmem
        exact absurd hmem (List.not_mem_nil l)
      by_cases hflag : l0.masterdefault = true
      · refine ⟨fun _ => ?_, fun hex => ?_, fun hnone => ?_, ?_⟩
        · simp only [ensureBOMLinkedToAssembly, if_pos h0, if_pos hflag]
        · obtain ⟨l, hl, hla, hlb, hlf⟩ := hex
          rcases List.mem_cons.1 hl with rfl | hl2
          · rw [hflag] at hlf; cases hlf
          · exact absurd ⟨hla, hlb⟩ (hlsempty l hl2)
        · exact absurd h0 (hnone l0 (List.mem_cons_self _ _))
        · simp only [ensureBOMLinkedToAssembly, if_pos h0, if_pos hflag]
          rw [hfl, hls0]
          rfl
      · refine ⟨fun hex => ?_, fun _ => ?_, fun hnone => ?_, ?_⟩
        · obtain ⟨l, hl, hla, hlb, hlf⟩ := hex
          rcases List.mem_cons.1 hl with rfl | hl2
          · exact absurd hlf hflag
          · exact absurd ⟨hla, hlb⟩ (hlsempty l hl2)
        · have hmap : ls.map (fun l => if l.assembly = a ∧ l.bom = b then
              (⟨a, b, true⟩ : BomLink) else l) = ls :=
            (List.map_congr_left (fun l hl => if_neg (hlsempty l hl))).trans (List.map_id ls)
          have hupg : ({ l0 with masterdefault := true } : BomLink) = ⟨a, b, true⟩ := by
            obtain ⟨ha, hb⟩ := h0
            cases l0
            cases ha
            cases hb
            rfl
          simp only [ensureBOMLinkedToAssembly, if_pos h0, if_neg hflag]
          rw [List.map_cons, if_pos h0, hmap, hupg]
        · exact absurd h0 (hnone l0 (List.mem_cons_self _ _))
        · simp only [ensureBOMLinkedToAssembly, if_pos h0, if_neg hflag]
          rw [List.filter_cons_of_pos (by simp [matchesPair, h0.1, h0.2]), hls0]
          rfl
    · have hfl : List.filter (matchesPair a b) (l0 :: ls) =
          List.filter (matchesPair a b) ls := by
        simp [List.filter_cons, matchesPair, h0]
      rw [hfl] at huniq
      obtain ⟨iha, ihb, ihc, ihd⟩ := ih huniq
      refine ⟨fun hex => ?_, fun hex => ?_, fun hnone => ?_, ?_⟩
      · obtain ⟨l, hl, hla, hlb, hlf⟩ := hex
        rcases List.mem_cons.1 hl with rfl | hl2
        · exact absurd ⟨hla, hlb⟩ h0
        · simp only [ensureBOMLinkedToAssembly, if_neg h0]
          rw [iha ⟨l, hl2, hla, hlb, hlf⟩]
      · obtain ⟨l, hl, hla, hlb, hlf⟩ := hex
        rcases List.mem_cons.1 hl with rfl | hl2
        · exact absurd ⟨hla, hlb⟩ h0
        · simp only [ensureBOMLinkedToAssembly, if_neg h0]
          rw [ihb ⟨l, hl2, hla, hlb, hlf⟩, List.map_cons, if_neg h0]
      · simp only [ensureBOMLinkedToAssembly, if_neg h0]
        rw [ihc (fun l hl => hnone l (List.mem_cons_of_mem _ hl))]
        rfl
      · simp only [ensureBOMLinkedToAssembly, if_neg h0]
        rw [List.filter_cons_of_neg (by simp [matchesPair, h0])]
        exact ihd

/-- Witness for C5 at concrete inputs: an existing non-preferred line is
upgraded in place and reported as updated. -/
theorem ensureBOMLink_spec_witness :
    ensureBOMLinkedToAssembly [⟨"A1", "B1", false⟩] "A1" "B1" = ([⟨"A1", "B1", true⟩], true) := by
  have h := (ensureBOMLink_spec [⟨"A1", "B1", false⟩] "A1" "B1" (by decide)).2.1
    ⟨⟨"A1", "B1", false⟩, by simp, rfl, rfl, rfl⟩
  exact h.trans (by decide)

/-! ### C4 — summarize skip/failure outcomes -/

/-- C4: for a composite row whose item resolves, `summarize` skips it
without counting a failure when it has no direct children in the row set,
and counts a failure — creating nothing, so its structure gets zero
components — when it has direct children but none of them resolves by
external identity. -/
theorem summarize_outcomes_spec (ns : String) (allRows : List MappedRow) (s : Store)
    (assembly : MappedRow)
    (hfound : findItemByExternalId s (itemExternalId ns (itemidOf assembly)) = true) :
    (allRows.filter (fun r => r.parentHierarchy = assembly.hierarchy) = [] →
      summarizeAssembly ns allRows s assembly = (s, .noChildren)) ∧
    (allRows.filter (fun r => r.parentHierarchy = assembly.hierarchy) ≠ [] →
      (∀ r ∈ allRows.filter (fun r => r.parentHierarchy = assembly.hierarchy),
        findItemByExternalId s (itemExternalId ns (itemidOf r)) = false) →
      summarizeAssembly ns allRows s assembly = (s, .noComponents)) ∧
    bomsFailedDelta AssemblyOutcome.noChildren = 0 ∧
    bomsFailedDelta AssemblyOutcome.noComponents = 1 := by
  refine ⟨fun hempty => ?_, fun hne hnores => ?_, rfl, rfl⟩
  · simp [summarizeAssembly, hfound, hempty]
  · have hcomps : (allRows.filter (fun r => r.parentHierarchy = assembly.hierarchy)).filterMap
        (fun child => if findItemByExternalId s (itemExternalId ns (itemidOf child))
          then some (itemidOf child, jsNumOr1 child.quantity) else none) = [] := by
      rw [List.filterMap_eq_nil_iff]
      intro r hr
      rw [if_neg (by simp [hnores r hr])]
    simp [summarizeAssembly, hfound, hne, hcomps]

/-- A concrete composite row for instantiating C4. -/
def sampleAssemblyRow : MappedRow :=
  { emptyMappedRow 2 with
    hierarchy := some "1.0"
    itemFields := [("itemid", "ASM")]
    isAssembly := true }

/-- A concrete child row (parent `1.0`) whose item does not exist. -/
def sampleChildRow : MappedRow :=
  { emptyMappedRow 3 with
    hierarchy := some "1.0.1"
    itemFields := [("itemid", "C")]
    parentHierarchy := some "1.0" }

/-- A store holding only the assembly item `P_ASM`. -/
def sampleStore : Store := ⟨["P_ASM"], [], [], [], []⟩

/-- Witness for C4 at concrete inputs: unresolvable children count as a
failure with no writes; no children at all is a pure skip. -/
theorem summarize_outcomes_spec_witness :
    summarizeAssembly "P" [sampleAssemblyRow, sampleChildRow] sampleStore sampleAssemblyRow
      = (sampleStore, .noComponents) ∧
    summarizeAssembly "P" [sampleAssemblyRow] sampleStore sampleAssemblyRow
      = (sampleStore, .noChildren) := by
  refine ⟨?_, ?_⟩
  · exact (summarize_outcomes_spec "P" [sampleAssemblyRow, sampleChildRow] sampleStore
      sampleAssemblyRow (by decide)).2.1 (by decide) (by decide)
  · exact (summarize_outcomes_spec "P" [sampleAssemblyRow] sampleStore
      sampleAssemblyRow (by decide)).1 (by decide)

/-! ### C7 — fatal configuration errors -/

/-- The run inputs on which `getInputData` aborts: missing script
parameter, unloadable/unparsable config file, unloadable CSV file, or
fewer than two nonblank lines (header plus at least one data row).
The run namespace (`prospectName`) does not appear here. -/
def fatalInput (param : Option ℕ) (configFiles : ℕ → Option ConfigFile)
    (files : ℕ → Option String) : Prop :=
  match param with
  | none => True
  | some configFileId =>
    match configFiles configFileId with
    | none => True
    | some config =>
      match files config.csvFileId with
      | none => True
      | some csvContent => (nonBlankLines csvContent).length < 2

/-- C7 (amended): `getInputData` raises a fatal error exactly when the
config-file parameter is missing, a needed file fails to load, or there
is less than one data row — a missing namespace is *not* fatal; the
missing-parameter abort happens before any record write, but the
zero-data-row abort can follow planning-category and vendor writes. -/
theorem getInputData_fatal_spec (param : Option ℕ) (configFiles : ℕ → Option ConfigFile)
    (files : ℕ → Option String) (categoryExists : Bool) (vendorExists : String → Bool) :
    (resultIsError (getInputDataModel param configFiles files categoryExists vendorExists).1
        = true ↔ fatalInput param configFiles files) ∧
    (param = none →
      (getInputDataModel param configFiles files categoryExists vendorExists).2 = []) := by
  constructor
  · cases param with
    | none => simp [getInputDataModel, fatalInput, resultIsError]
    | some configFileId =>
      cases hcf : configFiles configFileId with
      | none => simp [getInputDataModel, fatalInput, resultIsError, hcf]
      | some config =>
        cases hf : files config.csvFileId with
        | none => simp [getInputDataModel, fatalInput, resultIsError, hcf, hf]
        | some csvContent =>
          by_cases hlen : (nonBlankLines csvContent).length < 2
          · simp [getInputDataModel, fatalInput, resultIsError, hcf, hf, hlen]
          · simp [getInputDataModel, fatalInput, resultIsError, hcf, hf, hlen]
  · intro hp
    subst hp
    rfl

/-- A config with MRP setup enabled and namespace `P`, CSV in file 5. -/
def configWithMRP : ConfigFile := ⟨some "P", 5, [], true, false⟩

/-- A config whose namespace (`prospectName`) is missing. -/
def configMissingNamespace : ConfigFile :=
  ⟨none, 5, [(0, "hierarchy"), (1, "itemid")], false, false⟩

/-- C7 counterexample to the claim as stated: (i) a zero-data-row fatal
abort that happens *after* a planning-category record write (MRP setup
runs before the CSV row-count check), and (ii) a run with a missing
namespace that is not aborted at all. -/
theorem fatal_abort_counterexample :
    resultIsError (getInputDataModel (some 1) (fun i => if i = 1 then some configWithMRP else none)
        (fun i => if i = 5 then some "header only" else none) false (fun _ => false)).1
      = true ∧
    (getInputDataModel (some 1) (fun i => if i = 1 then some configWithMRP else none)
        (fun i => if i = 5 then some "header only" else none) false (fun _ => false)).2
      = [.planningCategory (some "P")] ∧
    resultIsError (getInputDataModel (some 1)
        (fun i => if i = 1 then some configMissingNamespace else none)
        (fun i => if i = 5 then some "h1,h2\n1.0,A" else none) false (fun _ => false)).1
      = false := by
  refine ⟨by decide, by decide, by decide⟩

/-- Witness for C7 at concrete inputs: a missing parameter is fatal. -/
theorem getInputData_fatal_spec_witness :
    resultIsError (getInputDataModel none (fun _ => none) (fun _ => none) false
      (fun _ => false)).1 = true := by
  exact (getInputData_fatal_spec none (fun _ => none) (fun _ => none) false
    (fun _ => false)).1.mpr trivial

/-! ### C10 — cache-miss re-parse refinement -/

/-- Projection of a fully mapped row onto the fields the fallback
re-parse reconstructs. -/
def projRow (m : MappedRow) : FallbackRow :=
  ⟨m.rowNumber, m.hierarchy, lookupField m.itemFields "itemid", m.quantity,
    m.isAssembly, m.parentHierarchy⟩

/-- Reading a key after a property write: the written key shadows, other
keys are untouched. -/
theorem lookupField_setField (fs : List (String × String)) (k key v : String) :
    lookupField (setField fs k v) key = if k = key then some v else lookupField fs key := by
  induction fs with
  | nil =>
    by_cases h : k = key <;> simp [setField, lookupField, h]
  | cons p rest ih =>
    obtain ⟨k0, v0⟩ := p
    by_cases h0 : k0 = k
    · subst h0
      by_cases h1 : k0 = key <;> simp [setField, lookupField, h1]
    · by_cases h1 : k0 = key
      · subst h1
        have : ¬(k = k0) := fun hc => h0 hc.symm
        simp [setField, lookupField, h0, this]
      · simp [setField, lookupField, h0, h1, ih]

/-- One mapping step commutes with the projection. -/
theorem projRow_applyMapping (cells : List String) (m : MappedRow) (e : ℕ × String) :
    projRow (applyMapping cells m e) = applyMappingFallback cells (projRow m) e := by
  unfold applyMapping applyMappingFallback
  dsimp only
  by_cases h0 : jsTrim (cells.getD e.1 "") = ""
  · rw [if_pos h0, if_pos h0]
  · rw [if_neg h0, if_neg h0]
    split <;> split <;>
      first
        | rfl
        | simp_all [projRow, lookupField_setField]

/-- The whole column-mapping commutes with the projection. -/
theorem mapRowFallback_eq_projRow (mappings : List (ℕ × String)) (row : RawRow) :
    mapRowFallback mappings row = projRow (mapRowPrimary mappings row) := by
  unfold mapRowFallback mapRowPrimary
  have : ∀ (ms : List (ℕ × String)) (m : MappedRow),
      List.foldl (applyMappingFallback row.cells) (projRow m) ms =
        projRow (List.foldl (applyMapping row.cells) m ms) := by
    intro ms
    induction ms with
    | nil => intro m; rfl
    | cons e es ih =>
      intro m
      simp only [List.foldl_cons]
      rw [← projRow_applyMapping, ih]
  exact (this mappings (emptyMappedRow row.rowNumber)).symm ▸ rfl

/-- The row filters agree across the projection. -/
theorem keepRowFallback_projRow (m : MappedRow) : keepRowFallback (projRow m) = keepRow m := rfl

/-- Classification rewrites project like the fallback classifier. -/
theorem projRow_classifyGo (keys : List String) :
    ∀ (rows : List MappedRow) (i : ℕ),
      (classifyGo keys i rows).map projRow =
        rows.map (fun r =>
          { projRow r with
            isAssembly := computeIsAssembly keys (r.hierarchy.getD "")
            parentHierarchy := parentKey (r.hierarchy.getD "") }) := by
  intro rows
  induction rows with
  | nil => intro i; rfl
  | cons r0 rs ih =>
    intro i
    simp only [classifyGo, List.map_cons]
    rw [ih]
    rfl

/-- C10: the cache-miss fallback re-parse of `summarize` produces exactly
the projection of the primary `getInputData` rows — in particular the two
row lists agree pointwise on hierarchy key, natural id, quantity,
assembly classification and parent hierarchy, so Phase 3 behaves the same
whether the rows come from the cache or are re-derived from source. -/
theorem reParse_refines_getInputData (csvContent : String) (mappings : List (ℕ × String)) :
    reParseCSVForSummarize csvContent mappings =
      (getInputRows csvContent mappings).map projRow ∧
    (reParseCSVForSummarize csvContent mappings).map
        (fun r => (r.hierarchy, r.itemid, r.quantity, r.isAssembly, r.parentHierarchy)) =
      (getInputRows csvContent mappings).map
        (fun r => (r.hierarchy, lookupField r.itemFields "itemid", r.quantity,
          r.isAssembly, r.parentHierarchy)) := by
  have hmain : reParseCSVForSummarize csvContent mappings =
      (getInputRows csvContent mappings).map projRow := by
    unfold reParseCSVForSummarize getInputRows classifyFallback classifyRows
    have hmapped : (rawRows csvContent).map (mapRowFallback mappings) =
        ((rawRows csvContent).map (mapRowPrimary mappings)).map projRow := by
      rw [List.map_map]
      exact List.map_congr_left (fun raw _ => mapRowFallback_eq_projRow mappings raw)
    rw [hmapped, List.filter_map]
    rw [show (keepRowFallback ∘ projRow) = keepRow from funext keepRowFallback_projRow]
    set flt := ((rawRows csvContent).map (mapRowPrimary mappings)).filter keepRow with hflt
    have hkeys : (flt.map projRow).filterMap (fun r => r.hierarchy) =
        flt.filterMap (fun r => r.hierarchy) := by
      rw [List.filterMap_map]
      rfl
    rw [hkeys]
    rw [projRow_classifyGo _ flt 0, List.map_map]
    rfl
  refine ⟨hmain, ?_⟩
  rw [hmain, List.map_map]
  rfl

/-! ### C1 — pipeline idempotence -/

/-- Phase 2 only ever appends: item membership is monotone. -/
theorem reduceRow_mono (ns : String) (locationIds : List ℕ) (s : Store) (r : MappedRow) :
    (∀ x ∈ s.items, x ∈ (reduceRow ns locationIds s r).items) ∧
    (∀ p ∈ s.itemLocs, p ∈ (reduceRow ns locationIds s r).itemLocs) := by
  unfold reduceRow createItem ensureItemLocations
  dsimp only
  split
  · exact ⟨fun x hx => hx, fun p hp => List.mem_append_left _ hp⟩
  · exact ⟨fun x hx => List.mem_append_left _ hx, fun p hp => List.mem_append_left _ hp⟩

/-- After its own Phase-2 step, a row's item exists and has every
configured location. -/
theorem reduceRow_establishes (ns : String) (locationIds : List ℕ) (s : Store) (r : MappedRow) :
    itemExternalId ns (itemidOf r) ∈ (reduceRow ns locationIds s r).items ∧
    ∀ l ∈ locationIds,
      (itemExternalId ns (itemidOf r), l) ∈ (reduceRow ns locationIds s r).itemLocs := by
  unfold reduceRow createItem ensureItemLocations findItemByExternalId
  dsimp only
  split
  · next hc =>
    refine ⟨List.elem_iff.1 hc, fun l hl => ?_⟩
    by_cases hin : (itemExternalId ns (itemidOf r), l) ∈ s.itemLocs
    · exact List.mem_append_left _ hin
    · refine List.mem_append_right _ ?_
      refine List.mem_map.2 ⟨l, ?_, rfl⟩
      refine List.mem_filter.2 ⟨hl, ?_⟩
      simp only [Bool.not_eq_true']
      exact Bool.not_eq_true _ ▸ (fun hc2 => hin (List.elem_iff.1 hc2))
  · refine ⟨List.mem_append_right _ (List.mem_singleton.2 rfl), fun l hl => ?_⟩
    exact List.mem_append_right _ (List.mem_map.2 ⟨l, hl, rfl⟩)

/-- Folding Phase 2 preserves item membership. -/
theorem foldl_reduceRow_keeps_item (ns : String) (locationIds : List ℕ) :
    ∀ (group : List MappedRow) (s : Store) (x : String), x ∈ s.items →
      x ∈ (group.foldl (reduceRow ns locationIds) s).items := by
  intro group
  induction group with
  | nil => exact fun s x hx => hx
  | cons q qs ih =>
    intro s x hx
    exact ih _ x ((reduceRow_mono ns locationIds s q).1 x hx)

/-- Folding Phase 2 preserves item-location membership. -/
theorem foldl_reduceRow_keeps_loc (ns : String) (locationIds : List ℕ) :
    ∀ (group : List MappedRow) (s : Store) (p : String × ℕ), p ∈ s.itemLocs →
      p ∈ (group.foldl (reduceRow ns locationIds) s).itemLocs := by
  intro group
  induction group with
  | nil => exact fun s p hp => hp
  | cons q qs ih =>
    intro s p hp
    exact ih _ p ((reduceRow_mono ns locationIds s q).2 p hp)

/-- After folding Phase 2 over a record group, every processed row's item
exists with all its locations. -/
theorem foldl_reduceRow_establishes (ns : String) (locationIds : List ℕ) :
    ∀ (group : List MappedRow) (s : Store), ∀ r ∈ group,
      itemExternalId ns (itemidOf r) ∈ (group.foldl (reduceRow ns locationIds) s).items ∧
      ∀ l ∈ locationIds,
        (itemExternalId ns (itemidOf r), l) ∈ (group.foldl (reduceRow ns locationIds) s).itemLocs := by
  intro group
  induction group with
  | nil => intro s r hr; exact absurd hr (List.not_mem_nil r)
  | cons r0 rs ih =>
    intro s r hr
    rcases List.mem_cons.1 hr with rfl | hr2
    · obtain ⟨h1, h2⟩ := reduceRow_establishes ns locationIds s r
      rw [List.foldl_cons]
      exact ⟨foldl_reduceRow_keeps_item ns locationIds rs _ _ h1,
        fun l hl => foldl_reduceRow_keeps_loc ns locationIds rs _ _ (h2 l hl)⟩
    · rw [List.foldl_cons]
      exact ih _ r hr2

/-- A Phase-2 step on an already-convergent row changes nothing. -/
theorem reduceRow_noop (ns : String) (locationIds : List ℕ) (s : Store) (r : MappedRow)
    (hitem : itemExternalId ns (itemidOf r) ∈ s.items)
    (hlocs : ∀ l ∈ locationIds, (itemExternalId ns (itemidOf r), l) ∈ s.itemLocs) :
    reduceRow ns locationIds s r = s := by
  unfold reduceRow createItem ensureItemLocations findItemByExternalId
  dsimp only
  rw [if_pos (List.elem_iff.2 hitem)]
  have hmiss : locationIds.filter
      (fun l => !s.itemLocs.contains (itemExternalId ns (itemidOf r), l)) = [] := by
    rw [List.filter_eq_nil_iff]
    intro l hl
    simp only [Bool.not_eq_true', Bool.not_eq_false]
    exact List.elem_iff.2 (hlocs l hl)
  rw [hmiss]
  simp

/-- Folding Phase 2 over already-convergent rows changes nothing. -/
theorem foldl_reduceRow_noop (ns : String) (locationIds : List ℕ) :
    ∀ (group : List MappedRow) (s : Store),
      (∀ r ∈ group, itemExternalId ns (itemidOf r) ∈ s.items ∧
        ∀ l ∈ locationIds, (itemExternalId ns (itemidOf r), l) ∈ s.itemLocs) →
      group.foldl (reduceRow ns locationIds) s = s := by
  intro group
  induction group with
  | nil => intro s _; rfl
  | cons r0 rs ih =>
    intro s h
    obtain ⟨h1, h2⟩ := h r0 (List.mem_cons_self _ _)
    rw [List.foldl_cons, reduceRow_noop ns locationIds s r0 h1 h2]
    exact ih s (fun r hr => h r (List.mem_cons_of_mem _ hr))

/-- Phase 2 over the partitioned groups: every row's item exists with all
locations afterwards. -/
theorem reducePhase_establishes (ns : String) (locationIds : List ℕ) (rows : List MappedRow)
    (s : Store) :
    ∀ r ∈ rows, itemExternalId ns (itemidOf r) ∈ (reducePhase ns locationIds rows s).items ∧
      ∀ l ∈ locationIds,
        (itemExternalId ns (itemidOf r), l) ∈ (reducePhase ns locationIds rows s).itemLocs := by
  intro r hr
  have hmem : r ∈ rows.filter (fun r => !r.isAssembly) ++ rows.filter (fun r => r.isAssembly) := by
    rcases Bool.eq_false_or_eq_true r.isAssembly with ha | ha
    · exact List.mem_append_right _ (List.mem_filter.2 ⟨hr, ha⟩)
    · exact List.mem_append_left _ (List.mem_filter.2 ⟨hr, by simp [ha]⟩)
  exact foldl_reduceRow_establishes ns locationIds _ s r hmem

/-- Phase 2 over already-convergent rows changes nothing. -/
theorem reducePhase_noop (ns : String) (locationIds : List ℕ) (rows : List MappedRow)
    (s : Store)
    (h : ∀ r ∈ rows, itemExternalId ns (itemidOf r) ∈ s.items ∧
      ∀ l ∈ locationIds, (itemExternalId ns (itemidOf r), l) ∈ s.itemLocs) :
    reducePhase ns locationIds rows s = s := by
  unfold reducePhase
  refine foldl_reduceRow_noop ns locationIds _ s (fun r hr => ?_)
  rcases List.mem_append.1 hr with hm | hm
  · exact h r (List.mem_filter.1 hm).1
  · exact h r (List.mem_filter.1 hm).1

/-- Whether the first link line for a pair carries the preferred flag. -/
def linkDone (links : List BomLink) (a b : String) : Bool :=
  match links.find? (matchesPair a b) with
  | some l => l.masterdefault
  | none => false

/-- A non-matching head does not affect the pair's first link line. -/
theorem linkDone_cons_of_not_match {l0 : BomLink} {a b : String}
    (h : matchesPair a b l0 = false) (ls : List BomLink) :
    linkDone (l0 :: ls) a b = linkDone ls a b := by
  simp [linkDone, List.find?_cons, h]

/-- A matching head is the pair's first link line. -/
theorem linkDone_cons_of_match {l0 : BomLink} {a b : String}
    (h : matchesPair a b l0 = true) (ls : List BomLink) :
    linkDone (l0 :: ls) a b = l0.masterdefault := by
  simp [linkDone, List.find?_cons, h]

/-- After reconciliation the pair's first link line is preferred. -/
theorem ensureBOMLink_establishes_linkDone (a b : String) :
    ∀ links : List BomLink, linkDone (ensureBOMLinkedToAssembly links a b).1 a b = true := by
  intro links
  induction links with
  | nil => simp [ensureBOMLinkedToAssembly, linkDone, List.find?, matchesPair]
  | cons l0 ls ih =>
    by_cases h0 : l0.assembly = a ∧ l0.bom = b
    · by_cases hflag : l0.masterdefault = true
      · simp only [ensureBOMLinkedToAssembly, if_pos h0, if_pos hflag]
        rw [linkDone_cons_of_match (by simp [matchesPair, h0]) ls]
        exact hflag
      · simp only [ensureBOMLinkedToAssembly, if_pos h0, if_neg hflag]
        rw [linkDone_cons_of_match (by simp [matchesPair, h0]) ls]
    · simp only [ensureBOMLinkedToAssembly, if_neg h0]
      rw [linkDone_cons_of_not_match (by simp [matchesPair, h0]) _]
      exact ih

/-- Reconciling any pair keeps every already-preferred first link line
preferred. -/
theorem ensureBOMLink_keeps_linkDone (a b x y : String) :
    ∀ links : List BomLink, linkDone links a b = true →
      linkDone (ensureBOMLinkedToAssembly links x y).1 a b = true := by
  intro links
  induction links with
  | nil => intro h; simp [linkDone, List.find?] at h
  | cons l0 ls ih =>
    intro h
    by_cases h0 : l0.assembly = x ∧ l0.bom = y
    · by_cases hflag : l0.masterdefault = true
      · simpa only [ensureBOMLinkedToAssembly, if_pos h0, if_pos hflag] using h
      · simp only [ensureBOMLinkedToAssembly, if_pos h0, if_neg hflag]
        by_cases hab : l0.assembly = a ∧ l0.bom = b
        · rw [linkDone_cons_of_match (by simp [matchesPair, hab]) ls] at h
          exact absurd h hflag
        · rw [linkDone_cons_of_not_match (by simp [matchesPair, hab]) ls] at h
          rw [linkDone_cons_of_not_match (by simp [matchesPair, hab]) ls]
          exact h
    · simp only [ensureBOMLinkedToAssembly, if_neg h0]
      by_cases hab : l0.assembly = a ∧ l0.bom = b
      · rw [linkDone_cons_of_match (by simp [matchesPair, hab]) ls] at h
        rw [linkDone_cons_of_match (by simp [matchesPair, hab]) _]
        exact h
      · rw [linkDone_cons_of_not_match (by simp [matchesPair, hab]) ls] at h
        rw [linkDone_cons_of_not_match (by simp [matchesPair, hab]) _]
        exact ih h

/-- Reconciling a pair whose first link line is already preferred is a
no-op that reports not-updated. -/
theorem ensureBOMLink_noop (a b : String) :
    ∀ links : List BomLink, linkDone links a b = true →
      ensureBOMLinkedToAssembly links a b = (links, false) := by
  intro links
  induction links with
  | nil => intro h; simp [linkDone, List.find?] at h
  | cons l0 ls ih =>
    intro h
    by_cases h0 : l0.assembly = a ∧ l0.bom = b
    · rw [linkDone_cons_of_match (by simp [matchesPair, h0]) ls] at h
      simp only [ensureBOMLinkedToAssembly, if_pos h0, if_pos h]
    · rw [linkDone_cons_of_not_match (by simp [matchesPair, h0]) ls] at h
      simp only [ensureBOMLinkedToAssembly, if_neg h0]
      rw [ih h]

/-- Item existence lookup agrees with membership. -/
theorem findItemByExternalId_iff (s : Store) (e : String) :
    findItemByExternalId s e = true ↔ e ∈ s.items :=
  List.elem_iff

/-- Phase 3 never touches items or item locations. -/
theorem summarizeAssembly_keeps_items (ns : String) (allRows : List MappedRow) (s : Store)
    (a : MappedRow) :
    ((summarizeAssembly ns allRows s a).1).items = s.items ∧
    ((summarizeAssembly ns allRows s a).1).itemLocs = s.itemLocs := by
  unfold summarizeAssembly
  dsimp only
  split
  · exact ⟨rfl, rfl⟩
  · split
    · exact ⟨rfl, rfl⟩
    · split
      · exact ⟨rfl, rfl⟩
      · constructor <;> (split <;> split <;> rfl)

/-- Phase 3 only ever appends BOMs and revisions. -/
theorem summarizeAssembly_mono (ns : String) (allRows : List MappedRow) (s : Store)
    (a : MappedRow) :
    (∀ x ∈ s.boms, x ∈ ((summarizeAssembly ns allRows s a).1).boms) ∧
    (∀ x ∈ s.bomRevs, x ∈ ((summarizeAssembly ns allRows s a).1).bomRevs) := by
  unfold summarizeAssembly
  dsimp only
  split
  · exact ⟨fun x hx => hx, fun x hx => hx⟩
  · split
    · exact ⟨fun x hx => hx, fun x hx => hx⟩
    · split
      · exact ⟨fun x hx => hx, fun x hx => hx⟩
      · constructor <;>
          (intro x hx; split <;> split <;>
            first
              | exact hx
              | exact List.mem_append_left _ hx)

/-- Convergence of one composite row at a store state: it either has no
direct children, or its BOM, revision and preferred link all exist. -/
def asmDone (ns : String) (allRows : List MappedRow) (s : Store) (a : MappedRow) : Prop :=
  allRows.filter (fun r => r.parentHierarchy = a.hierarchy) = [] ∨
  (bomExternalId ns (itemidOf a) ∈ s.boms ∧
   bomRevisionExternalId ns (itemidOf a) ∈ s.bomRevs ∧
   linkDone s.bomLinks (itemExternalId ns (itemidOf a)) (bomExternalId ns (itemidOf a)) = true)

/-- One Phase-3 step preserves every row's convergence. -/
theorem summarizeAssembly_keeps_asmDone (ns : String) (allRows : List MappedRow) (s : Store)
    (a x : MappedRow) (h : asmDone ns allRows s x) :
    asmDone ns allRows ((summarizeAssembly ns allRows s a).1) x := by
  rcases h with h | ⟨h1, h2, h3⟩
  · exact Or.inl h
  · refine Or.inr ⟨(summarizeAssembly_mono ns allRows s a).1 _ h1,
      (summarizeAssembly_mono ns allRows s a).2 _ h2, ?_⟩
    unfold summarizeAssembly
    dsimp only
    split
    · exact h3
    · split
      · exact h3
      · split
        · exact h3
        · have hlinks : ∀ (t : Store), t.bomLinks = s.bomLinks →
              linkDone (ensureBOMLinkedToAssembly t.bomLinks
                  (itemExternalId ns (itemidOf a)) (bomExternalId ns (itemidOf a))).1
                (itemExternalId ns (itemidOf x)) (bomExternalId ns (itemidOf x)) = true := by
            intro t ht
            rw [ht]
            exact ensureBOMLink_keeps_linkDone _ _ _ _ s.bomLinks h3
          apply hlinks
          split <;> split <;> rfl

/-- One Phase-3 step on a composite whose item and children items all
exist leaves that composite convergent. -/
theorem summarizeAssembly_establishes (ns : String) (allRows : List MappedRow) (s : Store)
    (a : MappedRow)
    (hfound : itemExternalId ns (itemidOf a) ∈ s.items)
    (hchildren : ∀ r ∈ allRows.filter (fun r => r.parentHierarchy = a.hierarchy),
      itemExternalId ns (itemidOf r) ∈ s.items) :
    asmDone ns allRows ((summarizeAssembly ns allRows s a).1) a := by
  by_cases hempty : allRows.filter (fun r => r.parentHierarchy = a.hierarchy) = []
  · exact Or.inl hempty
  · unfold summarizeAssembly
    dsimp only
    rw [show findItemByExternalId s (itemExternalId ns (itemidOf a)) = true from
      (findItemByExternalId_iff _ _).2 hfound]
    simp only [Bool.not_true, Bool.false_eq_true, if_false]
    rw [if_neg (fun hc : (allRows.filter (fun r => r.parentHierarchy = a.hierarchy)).isEmpty
        = true => hempty (List.isEmpty_iff.1 hc))]
    rw [if_neg ?comps]
    case comps =>
      intro hc
      obtain ⟨c0, hc0⟩ := List.exists_mem_of_ne_nil _ hempty
      have := (List.filterMap_eq_nil_iff.1 (List.isEmpty_iff.1 hc)) c0 hc0
      rw [if_pos ((findItemByExternalId_iff _ _).2 (hchildren c0 hc0))] at this
      cases this
    by_cases hb : s.boms.contains (bomExternalId ns (itemidOf a)) = true
    · rw [if_pos hb]
      by_cases hrv : s.bomRevs.contains (bomRevisionExternalId ns (itemidOf a)) = true
      · rw [if_pos hrv]
        exact Or.inr ⟨List.elem_iff.1 hb, List.elem_iff.1 hrv,
          ensureBOMLink_establishes_linkDone _ _ _⟩
      · rw [if_neg hrv]
        exact Or.inr ⟨List.elem_iff.1 hb,
          List.mem_append_right _ (List.mem_singleton.2 rfl),
          ensureBOMLink_establishes_linkDone _ _ _⟩
    · rw [if_neg hb]
      dsimp only
      by_cases hrv : s.bomRevs.contains (bomRevisionExternalId ns (itemidOf a)) = true
      · rw [if_pos hrv]
        exact Or.inr ⟨List.mem_append_right _ (List.mem_singleton.2 rfl),
          List.elem_iff.1 hrv, ensureBOMLink_establishes_linkDone _ _ _⟩
      · rw [if_neg hrv]
        exact Or.inr ⟨List.mem_append_right _ (List.mem_singleton.2 rfl),
          List.mem_append_right _ (List.mem_singleton.2 rfl),
          ensureBOMLink_establishes_linkDone _ _ _⟩

/-- A Phase-3 step on an already-convergent composite changes nothing. -/
theorem summarizeAssembly_noop (ns : String) (allRows : List MappedRow) (s : Store)
    (a : MappedRow) (hdone : asmDone ns allRows s a) :
    (summarizeAssembly ns allRows s a).1 = s := by
  unfold summarizeAssembly
  dsimp only
  split
  · rfl
  · split
    · rfl
    · next hne =>
      rcases hdone with hdone | ⟨h1, h2, h3⟩
      · rw [show (allRows.filter (fun r => r.parentHierarchy = a.hierarchy)).isEmpty = true
          from by simp [hdone]] at hne
        cases hne rfl
      · split
        · rfl
        · rw [if_pos (List.elem_iff.2 h1)]
          rw [if_pos (List.elem_iff.2 h2)]
          rw [ensureBOMLink_noop _ _ _ h3]

/-- The Phase-3 fold never touches items or item locations. -/
theorem foldl_summarize_keeps_items (ns : String) (allRows : List MappedRow) :
    ∀ (asms : List MappedRow) (s : Store),
      ((asms.foldl (fun st x => (summarizeAssembly ns allRows st x).1) s).items = s.items ∧
       (asms.foldl (fun st x => (summarizeAssembly ns allRows st x).1) s).itemLocs
         = s.itemLocs) := by
  intro asms
  induction asms with
  | nil => exact fun s => ⟨rfl, rfl⟩
  | cons a rest ih =>
    intro s
    rw [List.foldl_cons]
    refine ⟨(ih _).1.trans ?_, (ih _).2.trans ?_⟩
    · exact (summarizeAssembly_keeps_items ns allRows s a).1
    · exact (summarizeAssembly_keeps_items ns allRows s a).2

/-- The Phase-3 fold preserves every row's convergence. -/
theorem foldl_summarize_keeps_asmDone (ns : String) (allRows : List MappedRow) :
    ∀ (asms : List MappedRow) (s : Store) (x : MappedRow), asmDone ns allRows s x →
      asmDone ns allRows (asms.foldl (fun st y => (summarizeAssembly ns allRows st y).1) s) x := by
  intro asms
  induction asms with
  | nil => exact fun s x h => h
  | cons a rest ih =>
    intro s x h
    rw [List.foldl_cons]
    exact ih _ x (summarizeAssembly_keeps_asmDone ns allRows s a x h)

/-- After the Phase-3 fold over composites whose items (and children
items) all exist, every processed composite is convergent. -/
theorem foldl_summarize_establishes (ns : String) (allRows : List MappedRow) :
    ∀ (asms : List MappedRow) (s : Store),
      (∀ r ∈ allRows, itemExternalId ns (itemidOf r) ∈ s.items) →
      (∀ a ∈ asms, a ∈ allRows) →
      ∀ a ∈ asms, asmDone ns allRows
        (asms.foldl (fun st y => (summarizeAssembly ns allRows st y).1) s) a := by
  intro asms
  induction asms with
  | nil => intro s _ _ a ha; exact absurd ha (List.not_mem_nil a)
  | cons a0 rest ih =>
    intro s hitems hsub a ha
    rw [List.foldl_cons]
    have hitems' : ∀ r ∈ allRows,
        itemExternalId ns (itemidOf r) ∈ ((summarizeAssembly ns allRows s a0).1).items := by
      intro r hr
      rw [(summarizeAssembly_keeps_items ns allRows s a0).1]
      exact hitems r hr
    rcases List.mem_cons.1 ha with rfl | ha2
    · refine foldl_summarize_keeps_asmDone ns allRows rest _ a ?_
      refine summarizeAssembly_establishes ns allRows s a
        (hitems a (hsub a (List.mem_cons_self _ _))) ?_
      intro r hrmem
      exact hitems r (List.mem_filter.1 hrmem).1
    · exact ih _ hitems' (fun x hx => hsub x (List.mem_cons_of_mem _ hx)) a ha2

/-- The Phase-3 fold over already-convergent composites changes nothing. -/
theorem foldl_summarize_noop (ns : String) (allRows : List MappedRow) :
    ∀ (asms : List MappedRow) (s : Store),
      (∀ a ∈ asms, asmDone ns allRows s a) →
      asms.foldl (fun st y => (summarizeAssembly ns allRows st y).1) s = s := by
  intro asms
  induction asms with
  | nil => exact fun s _ => rfl
  | cons a0 rest ih =>
    intro s h
    rw [List.foldl_cons, summarizeAssembly_noop ns allRows s a0 (h a0 (List.mem_cons_self _ _))]
    exact ih s (fun a ha => h a (List.mem_cons_of_mem _ ha))

/-- Running the classified-row pipeline a second time over its own output
state changes nothing. -/
theorem runPipeline_idem_aux (ns : String) (locationIds : List ℕ) (rows : List MappedRow)
    (s0 : Store) :
    runPipeline ns locationIds rows (runPipeline ns locationIds rows s0) =
      runPipeline ns locationIds rows s0 := by
  have hitemsMid := reducePhase_establishes ns locationIds rows s0
  have hkeep := foldl_summarize_keeps_items ns rows (rows.filter (fun r => r.isAssembly))
    (reducePhase ns locationIds rows s0)
  have hitems1 : ∀ r ∈ rows,
      itemExternalId ns (itemidOf r) ∈ (runPipeline ns locationIds rows s0).items ∧
      ∀ l ∈ locationIds,
        (itemExternalId ns (itemidOf r), l) ∈ (runPipeline ns locationIds rows s0).itemLocs := by
    intro r hr
    unfold runPipeline summarizePhase
    rw [hkeep.1, hkeep.2]
    exact hitemsMid r hr
  have hphase2 : reducePhase ns locationIds rows (runPipeline ns locationIds rows s0) =
      runPipeline ns locationIds rows s0 :=
    reducePhase_noop ns locationIds rows _ hitems1
  have hdone : ∀ a ∈ rows.filter (fun r => r.isAssembly),
      asmDone ns rows (runPipeline ns locationIds rows s0) a := by
    unfold runPipeline summarizePhase
    exact foldl_summarize_establishes ns rows _ _
      (fun r hr => (hitemsMid r hr).1)
      (fun a ha => (List.mem_filter.1 ha).1)
  have hphase3 : summarizePhase ns rows (runPipeline ns locationIds rows s0) =
      runPipeline ns locationIds rows s0 := by
    unfold summarizePhase
    exact foldl_summarize_noop ns rows _ _ hdone
  show summarizePhase ns rows (reducePhase ns locationIds rows _) = _
  rw [hphase2]
  exact hphase3

/-- The record counts of a store: items, item-location configurations,
BOMs, BOM revisions, BOM links. -/
def storeCounts (s : Store) : ℕ × ℕ × ℕ × ℕ × ℕ :=
  (s.items.length, s.itemLocs.length, s.boms.length, s.bomRevs.length, s.bomLinks.length)

/-- C1: re-running the whole pipeline on the same CSV and run namespace
over the state left by the first run changes the store not at all — in
particular zero net new items, item-location configurations, BOMs,
revisions or links, and identical final record counts. -/
theorem pipeline_idempotent (ns : String) (locationIds : List ℕ) (csvContent : String)
    (mappings : List (ℕ × String)) (s0 : Store) :
    runPipelineFromCSV ns locationIds csvContent mappings
        (runPipelineFromCSV ns locationIds csvContent mappings s0) =
      runPipelineFromCSV ns locationIds csvContent mappings s0 ∧
    storeCounts (runPipelineFromCSV ns locationIds csvContent mappings
        (runPipelineFromCSV ns locationIds csvContent mappings s0)) =
      storeCounts (runPipelineFromCSV ns locationIds csvContent mappings s0) := by
  have h := runPipeline_idem_aux ns locationIds (getInputRows csvContent mappings) s0
  exact ⟨h, by rw [show runPipelineFromCSV ns locationIds csvContent mappings
    (runPipelineFromCSV ns locationIds csvContent mappings s0) =
      runPipelineFromCSV ns locationIds csvContent mappings s0 from h]⟩
